import Mathlib

/-!
Shallow embedding of the Conway's Game of Life simulation in `src/main.py`
(classes `ControllerPanel` and `Board`).

A grid cell is identified by its coordinate `(row, col) : Nat × Nat` — in the
source every coordinate owns exactly one distinct Tk button object (built once
by `_init_grid`), so button identity and coordinate are interchangeable.  The
liveness state `Board.active_cells` is the Python list `self.active_cells`,
kept as a Lean `List` to preserve order and possible duplication.  Button
background colors are rendering-only data that no liveness decision reads
(membership in `active_cells` is the sole liveness test in the source), so the
embedding omits them.

Python `int` is embedded as `Int`; Python list indexing `cells[i]` (which
resolves negative indices from the end and raises `IndexError` outside
`[-len, len)`) is embedded as `pyIdx`.
-/

namespace Life

/-- State of the `Board` canvas that the liveness logic reads and writes:
grid dimensions `nrows × ncols`, the simulation `speed`, the list
`active_cells` of alive cells, and the `_stopped` pause flag
(initialized `True` in `__init__`). -/
structure Board where
  nrows : Nat
  ncols : Nat
  speed : Int
  active_cells : List (Nat × Nat)
  _stopped : Bool
deriving DecidableEq

/-- Python list indexing semantics for a list of length `n`: an index in
`[0, n)` is used directly, an index in `[-n, 0)` is offset from the end, and
anything else raises `IndexError` (embedded as `none`). -/
def pyIdx (i : Int) (n : Nat) : Option Nat :=
  if 0 ≤ i ∧ i < (n : Int) then some i.toNat
  else if -(n : Int) ≤ i ∧ i < 0 then some ((n : Int) + i).toNat
  else none

/-- `Board.toggle_cell(col, row)`: looks up `button = self.cells[row][col]`
(Python indexing, hence `pyIdx`; a failed lookup is the raised `IndexError`).
If the button is already in `active_cells` the source only cycles its
background color (no membership change); otherwise it appends the button to
`active_cells`. -/
def Board.toggle_cell (b : Board) (row col : Int) : Option Board :=
  (pyIdx row b.nrows).bind fun r =>
    (pyIdx col b.ncols).bind fun c =>
      if (r, c) ∈ b.active_cells then
        some b
      else
        some { b with active_cells := b.active_cells ++ [(r, c)] }

/-- `Board.deactivate_cell(button)`: removes the button from `active_cells`
if present (`list.remove` deletes the first occurrence), otherwise leaves the
list alone; the color reset is rendering-only. -/
def Board.deactivate_cell (b : Board) (p : Nat × Nat) : Board :=
  { b with active_cells := b.active_cells.erase p }

/-- The cells examined by `Board.get_neighbors_count(row, col)`: the source
loops `y in range(max(0, row-1), min(nrows, row+2))` and
`x in range(max(0, col-1), min(ncols, col+2))`, skipping `(row, col)` itself.
(`Nat` subtraction `row - 1` is exactly Python's `max(0, row-1)`.) -/
def neighborCandidates (b : Board) (row col : Nat) : List (Nat × Nat) :=
  (((List.range' (row - 1) (min b.nrows (row + 2) - (row - 1))).flatMap fun y =>
    (List.range' (col - 1) (min b.ncols (col + 2) - (col - 1))).map fun x =>
      (y, x))).filter fun p => p ≠ (row, col)

/-- `Board.get_neighbors_count(row, col)`: among the examined candidate cells,
counts those whose button is in `active_cells` (a membership test per
candidate). -/
def Board.get_neighbors_count (b : Board) (row col : Nat) : Nat :=
  (neighborCandidates b row col).countP fun p => decide (p ∈ b.active_cells)

/-- The row-major list of all grid coordinates walked by the double loop
`for row in range(nrows): for col in range(ncols)` in `update_cells`. -/
def gridCoords (b : Board) : List (Nat × Nat) :=
  (List.range b.nrows).flatMap fun r => (List.range b.ncols).map fun c => (r, c)

/-- `cells_to_activate` as collected by the scan in `update_cells`: the grid
coordinates that are not alive and have exactly 3 alive neighbors, all counts
taken on the current `active_cells`. -/
def birthsList (b : Board) : List (Nat × Nat) :=
  (gridCoords b).filter fun p =>
    decide ((p.1, p.2) ∉ b.active_cells) && decide (b.get_neighbors_count p.1 p.2 = 3)

/-- `cells_to_deactivate` as collected by the scan in `update_cells`: the grid
coordinates that are alive and whose alive-neighbor count is not in `[2, 3]`.
(The source's `elif` branch is reached exactly when its own guard holds, since
the `if` guard requires a dead cell and this one an alive cell.) -/
def deathsList (b : Board) : List (Nat × Nat) :=
  (gridCoords b).filter fun p =>
    decide ((p.1, p.2) ∈ b.active_cells) &&
      !decide (b.get_neighbors_count p.1 p.2 = 2 ∨ b.get_neighbors_count p.1 p.2 = 3)

/-- One iteration of the batch-activation loop in `update_cells`:
`if btn not in self.active_cells: self.active_cells.append(btn)`. -/
def addNew (acc : List (Nat × Nat)) (p : Nat × Nat) : List (Nat × Nat) :=
  if p ∈ acc then acc else acc ++ [p]

/-- The batch-update phase of `update_cells`: first every collected birth is
appended (guarded by a membership re-check), then every collected death is
removed via `deactivate_cell`. -/
def nextActive (b : Board) : List (Nat × Nat) :=
  (deathsList b).foldl (fun acc p => acc.erase p) ((birthsList b).foldl addNew b.active_cells)

/-- The pure grid-evolution part of `update_cells`: scan, then batch commit. -/
def Board.step (b : Board) : Board :=
  { b with active_cells := nextActive b }

/-- The rescheduling delay computed at the end of `update_cells`:
`delay = max(10, int(1000 - (self.speed * 9)))` (the `int()` is the identity
since `speed` is already an `int`). -/
def delay (speed : Int) : Int :=
  max 10 (1000 - speed * 9)

/-- `Board.update_cells()`, one timer tick: if `_stopped` it returns at once
(no state change, no `after` call); otherwise it performs one evolution step
and schedules the next tick after `delay speed` milliseconds.  The result pair
is (new board state, scheduled delay if any). -/
def Board.update_cells (b : Board) : Board × Option Int :=
  if b._stopped then (b, none)
  else (b.step, some (delay b.speed))

/-- The board state after one tick fires (dropping the scheduling output). -/
def tick1 (b : Board) : Board :=
  (b.update_cells).1

/-- `Board.stop()`: sets `self._stopped = True`. -/
def Board.stop (b : Board) : Board :=
  { b with _stopped := true }

/-- `Board.resume()`: sets `self._stopped = False` and immediately calls
`update_cells()`. -/
def Board.resume (b : Board) : Board × Option Int :=
  Board.update_cells { b with _stopped := false }

/-- `ControllerPanel.set_speed(value)`: stores `int(value)` into
`self.board.speed`, with `value` already parsed to an integer here. -/
def set_speed (b : Board) (v : Int) : Board :=
  { b with speed := v }

/-- A 5×5 board whose alive list is the horizontal length-3 blinker, paused. -/
def blinker : Board :=
  { nrows := 5, ncols := 5, speed := 20,
    active_cells := [(1, 1), (1, 2), (1, 3)], _stopped := true }

/-- A small 5×5 board with an empty alive list, used as a concrete instance. -/
def b55 : Board :=
  { nrows := 5, ncols := 5, speed := 20, active_cells := [], _stopped := true }

/-- A concrete running board, used as a concrete instance for the scheduler. -/
def bRun : Board :=
  { nrows := 5, ncols := 5, speed := 20,
    active_cells := [(1, 1), (1, 2), (1, 3)], _stopped := false }

/-! ## Helper lemmas about the batch commit -/

theorem mem_addNew {acc : List (Nat × Nat)} {a p : Nat × Nat} :
    p ∈ addNew acc a ↔ p ∈ acc ∨ p = a := by
  unfold addNew
  by_cases h : a ∈ acc
  · simp only [if_pos h]
    constructor
    · exact Or.inl
    · rintro (hp | rfl)
      · exact hp
      · exact h
  · simp [if_neg h]

theorem mem_foldl_addNew (l init : List (Nat × Nat)) (p : Nat × Nat) :
    p ∈ l.foldl addNew init ↔ p ∈ init ∨ p ∈ l := by
  induction l generalizing init with
  | nil => simp
  | cons a l ih =>
      rw [List.foldl_cons, ih, mem_addNew, List.mem_cons]
      constructor
      · rintro ((hp | rfl) | hp)
        · exact Or.inl hp
        · exact Or.inr (Or.inl rfl)
        · exact Or.inr (Or.inr hp)
      · rintro (hp | rfl | hp)
        · exact Or.inl (Or.inl hp)
        · exact Or.inl (Or.inr rfl)
        · exact Or.inr hp

theorem nodup_addNew {acc : List (Nat × Nat)} {a : Nat × Nat} (h : acc.Nodup) :
    (addNew acc a).Nodup := by
  unfold addNew
  by_cases ha : a ∈ acc
  · simpa [if_pos ha]
  · simp only [if_neg ha, List.nodup_append]
    refine ⟨h, List.nodup_singleton a, ?_⟩
    intro x hx hxa
    rw [List.mem_singleton] at hxa
    exact ha (hxa ▸ hx)

theorem nodup_foldl_addNew (l init : List (Nat × Nat)) (h : init.Nodup) :
    (l.foldl addNew init).Nodup := by
  induction l generalizing init with
  | nil => simpa
  | cons a l ih => exact ih _ (nodup_addNew h)

theorem mem_foldl_erase (ds : List (Nat × Nat)) (l : List (Nat × Nat)) (h : l.Nodup)
    (p : Nat × Nat) :
    p ∈ ds.foldl (fun acc q => acc.erase q) l ↔ p ∈ l ∧ p ∉ ds := by
  induction ds generalizing l with
  | nil => simp
  | cons d ds ih =>
      rw [List.foldl_cons, ih _ (h.erase d), h.mem_erase_iff, List.mem_cons]
      constructor
      · rintro ⟨⟨hpd, hp⟩, hds⟩
        exact ⟨hp, by rintro (rfl | hmem) <;> [exact hpd rfl; exact hds hmem]⟩
      · rintro ⟨hp, hnot⟩
        exact ⟨⟨fun hpd => hnot (Or.inl hpd), hp⟩, fun hmem => hnot (Or.inr hmem)⟩

theorem nodup_foldl_erase (ds l : List (Nat × Nat)) (h : l.Nodup) :
    (ds.foldl (fun acc q => acc.erase q) l).Nodup := by
  induction ds generalizing l with
  | nil => simpa
  | cons d ds ih => exact ih _ (h.erase d)

theorem mem_gridCoords {b : Board} {p : Nat × Nat} :
    p ∈ gridCoords b ↔ p.1 < b.nrows ∧ p.2 < b.ncols := by
  obtain ⟨r, c⟩ := p
  simp only [gridCoords, List.mem_flatMap, List.mem_map, List.mem_range, Prod.mk.injEq]
  constructor
  · rintro ⟨y, hy, x, hx, rfl, rfl⟩
    exact ⟨hy, hx⟩
  · rintro ⟨hr, hc⟩
    exact ⟨r, hr, c, hc, rfl, rfl⟩

theorem mem_birthsList {b : Board} {p : Nat × Nat} :
    p ∈ birthsList b ↔
      (p.1 < b.nrows ∧ p.2 < b.ncols) ∧ p ∉ b.active_cells ∧
        b.get_neighbors_count p.1 p.2 = 3 := by
  obtain ⟨r, c⟩ := p
  simp [birthsList, List.mem_filter, mem_gridCoords, and_assoc]

theorem mem_deathsList {b : Board} {p : Nat × Nat} :
    p ∈ deathsList b ↔
      (p.1 < b.nrows ∧ p.2 < b.ncols) ∧ p ∈ b.active_cells ∧
        ¬(b.get_neighbors_count p.1 p.2 = 2 ∨ b.get_neighbors_count p.1 p.2 = 3) := by
  obtain ⟨r, c⟩ := p
  simp [deathsList, List.mem_filter, mem_gridCoords, and_assoc]

theorem mem_nextActive {b : Board} (h : b.active_cells.Nodup) {p : Nat × Nat} :
    p ∈ nextActive b ↔
      (p ∈ b.active_cells ∨ p ∈ birthsList b) ∧ p ∉ deathsList b := by
  unfold nextActive
  rw [mem_foldl_erase _ _ (nodup_foldl_addNew _ _ h), mem_foldl_addNew]

/-! ## Helper lemmas about the neighborhood scan -/

theorem mem_prodList {ys xs : List Nat} {p : Nat × Nat} :
    p ∈ ys.flatMap (fun y => xs.map fun x => (y, x)) ↔ p.1 ∈ ys ∧ p.2 ∈ xs := by
  obtain ⟨a, d⟩ := p
  simp only [List.mem_flatMap, List.mem_map, Prod.mk.injEq]
  constructor
  · rintro ⟨y, hy, x, hx, rfl, rfl⟩
    exact ⟨hy, hx⟩
  · rintro ⟨ha, hd⟩
    exact ⟨a, ha, d, hd, rfl, rfl⟩

theorem length_prodList (ys xs : List Nat) :
    (ys.flatMap (fun y => xs.map fun x => (y, x))).length = ys.length * xs.length := by
  induction ys with
  | nil => simp
  | cons a ys ih =>
      simp only [List.flatMap_cons, List.length_append, List.length_map, ih, List.length_cons]
      ring

theorem nodup_prodList {ys xs : List Nat} (hys : ys.Nodup) (hxs : xs.Nodup) :
    (ys.flatMap (fun y => xs.map fun x => (y, x))).Nodup := by
  induction ys with
  | nil => simp
  | cons a ys ih =>
      rw [List.flatMap_cons, List.nodup_append]
      rw [List.nodup_cons] at hys
      refine ⟨hxs.map fun x1 x2 hx => ?_, ih hys.2, ?_⟩
      · simpa using hx
      · intro q hq1 hq2
        rw [List.mem_map] at hq1
        obtain ⟨x, _, rfl⟩ := hq1
        rw [mem_prodList] at hq2
        exact hys.1 hq2.1

theorem length_filter_ne {l : List (Nat × Nat)} {a : Nat × Nat} (hnd : l.Nodup) (ha : a ∈ l) :
    (l.filter fun p => p ≠ a).length + 1 = l.length := by
  induction l with
  | nil => cases ha
  | cons bq l ih =>
      rw [List.nodup_cons] at hnd
      rcases List.mem_cons.mp ha with rfl | ha2
      · have h1 : List.filter (fun p => decide (p ≠ a)) l = l := by
          apply List.filter_eq_self.mpr
          intro x hx
          simp only [decide_eq_true_eq]
          exact fun hxa => hnd.1 (hxa ▸ hx)
        rw [List.filter_cons_of_neg (by simp), h1, List.length_cons]
      · have hba : bq ≠ a := fun hba => hnd.1 (hba ▸ ha2)
        rw [List.filter_cons_of_pos (by simpa using hba), List.length_cons, List.length_cons]
        have := ih hnd.2 ha2
        omega

theorem nodup_neighborCandidates (b : Board) (r c : Nat) :
    (neighborCandidates b r c).Nodup :=
  (nodup_prodList (List.nodup_range' ..) (List.nodup_range' ..)).filter _

theorem length_neighborCandidates (b : Board) (r c : Nat) (hr : r < b.nrows)
    (hc : c < b.ncols) :
    (neighborCandidates b r c).length + 1 =
      (min b.nrows (r + 2) - (r - 1)) * (min b.ncols (c + 2) - (c - 1)) := by
  have hmem : ((r, c) : Nat × Nat) ∈
      (List.range' (r - 1) (min b.nrows (r + 2) - (r - 1))).flatMap
        (fun y => (List.range' (c - 1) (min b.ncols (c + 2) - (c - 1))).map fun x => (y, x)) := by
    rw [mem_prodList]
    simp only [List.mem_range'_1]
    omega
  unfold neighborCandidates
  rw [length_filter_ne (nodup_prodList (List.nodup_range' ..) (List.nodup_range' ..)) hmem,
    length_prodList]
  simp

/-! ## Claims -/

/-- C1: one evolution step applies the Life rule to every in-bounds coordinate
using neighbor counts of the current generation only: a dead cell is in the
next generation exactly when it has 3 alive neighbors now, an alive cell
exactly when its current count is 2 or 3; all counts on the right-hand side
are evaluated on the pre-step board, so no cell's transition depends on
another cell's transition within the same step. -/
theorem step_applies_life_rule (b : Board) (h : b.active_cells.Nodup)
    (r c : Nat) (hr : r < b.nrows) (hc : c < b.ncols) :
    ((r, c) ∈ (Board.step b).active_cells ↔
      if (r, c) ∈ b.active_cells
      then b.get_neighbors_count r c = 2 ∨ b.get_neighbors_count r c = 3
      else b.get_neighbors_count r c = 3) := by
  show (r, c) ∈ nextActive b ↔ _
  rw [mem_nextActive h, mem_birthsList, mem_deathsList]
  by_cases hm : (r, c) ∈ b.active_cells
  · rw [if_pos hm]
    tauto
  · rw [if_neg hm]
    tauto

/-- Witness for C1 at the blinker board and the coordinate (0, 2). -/
theorem step_applies_life_rule_witness :
    ((0, 2) ∈ (Board.step blinker).active_cells ↔
      if ((0 : Nat), (2 : Nat)) ∈ blinker.active_cells
      then blinker.get_neighbors_count 0 2 = 2 ∨ blinker.get_neighbors_count 0 2 = 3
      else blinker.get_neighbors_count 0 2 = 3) :=
  step_applies_life_rule blinker (by decide) 0 2 (by decide) (by decide)

/-- C2: after `stop()`, any number of fired `tick()` callbacks leaves the
alive set unchanged and none of them reschedules; a `resume()` performed at
that point immediately runs one evolution step from the alive set exactly as
it stood at `stop()` time (`nextActive b` is computed from `b.active_cells`)
and schedules the next tick. -/
theorem stop_freezes_resume_steps (b : Board) (n : Nat) :
    (tick1^[n] b.stop).active_cells = b.active_cells
    ∧ (Board.update_cells (tick1^[n] b.stop)).2 = none
    ∧ ((tick1^[n] b.stop).resume).1.active_cells = nextActive b
    ∧ ((tick1^[n] b.stop).resume).2 = some (delay b.speed) := by
  have hstep : tick1 b.stop = b.stop := by
    simp [tick1, Board.update_cells, Board.stop]
  have hfix : tick1^[n] b.stop = b.stop := Function.iterate_fixed hstep n
  rw [hfix]
  exact ⟨rfl, by simp [Board.update_cells, Board.stop], rfl, rfl⟩

/-- C3: the delay computed after each running tick is `max 10 (1000 - speed*9)`
milliseconds, with `delay 0 = 1000`, `delay 50 = 550`, `delay 100 = 100`, and
the mapping is monotonically non-increasing on speeds in `[0, 100]`. -/
theorem delay_mapping (b : Board) :
    (b._stopped = false → (Board.update_cells b).2 = some (delay b.speed))
    ∧ delay 0 = 1000 ∧ delay 50 = 550 ∧ delay 100 = 100
    ∧ ∀ s1 s2 : Int, 0 ≤ s1 → s1 ≤ s2 → s2 ≤ 100 → delay s2 ≤ delay s1 := by
  refine ⟨fun h => by simp [Board.update_cells, h], by decide, by decide, by decide, ?_⟩
  intro s1 s2 _ h12 _
  simp only [delay]
  omega

/-- Witness for C3 at the running blinker board and speeds 0 and 100. -/
theorem delay_mapping_witness :
    (Board.update_cells bRun).2 = some (delay bRun.speed) ∧ delay 100 ≤ delay 0 :=
  ⟨(delay_mapping bRun).1 rfl,
    (delay_mapping bRun).2.2.2.2 0 100 (by decide) (by decide) (by decide)⟩

/-- C4 counterexample: at speed 100 the computed rescheduling delay is not the
claimed 10 ms hard floor — it is 100 ms. -/
theorem delay_at_100_not_floor : delay 100 = 100 ∧ delay 100 ≠ 10 := by decide

/-- C4 (amended): for speed 100 the computed rescheduling delay is the
100 ms produced by the linear formula `1000 - speed*9`; the 10 ms hard floor
bounds every delay from below but does not bind at speed 100. -/
theorem delay_at_100 : delay 100 = 100 ∧ ∀ s : Int, 10 ≤ delay s := by
  refine ⟨by decide, fun s => ?_⟩
  simp only [delay]
  omega

/-- C5: evaluation at the failing input. On the empty 5×5 board, the toggle
request for coordinate (-1, 0) does not fail: Python's negative indexing
resolves row -1 to row 4, so the call activates cell (4, 0) and mutates the
alive set. (The other out-of-bounds probe, row 5, does abort with an
uncaught IndexError, leaving the alive set untouched.) -/
theorem toggle_negative_index_mutates :
    Board.toggle_cell b55 (-1) 0 = some { b55 with active_cells := [(4, 0)] }
    ∧ Board.toggle_cell b55 5 0 = none := by
  exact ⟨rfl, rfl⟩

/-- C6 counterexample: `set_speed` stores 150 as-is; the stored value is not
clamped to [0, 100]. -/
theorem set_speed_not_clamped :
    (set_speed b55 150).speed = 150 ∧ ¬(set_speed b55 150).speed ≤ 100 := by
  decide

/-- C6 (amended): `set_speed(v)` stores `int(v)` without clamping (the
[0,100] range is enforced only by the UI slider widget, outside this code);
it changes nothing else of the board state and triggers no scheduling, and the
stored speed takes effect on the next scheduled delay computation. -/
theorem set_speed_stores (b : Board) (v : Int) :
    (set_speed b v).speed = v
    ∧ (set_speed b v).active_cells = b.active_cells
    ∧ (set_speed b v)._stopped = b._stopped
    ∧ ((set_speed b v)._stopped = false →
        (Board.update_cells (set_speed b v)).2 = some (delay v)) := by
  refine ⟨rfl, rfl, rfl, fun h => ?_⟩
  have hb : b._stopped = false := h
  simp [Board.update_cells, set_speed, hb]

/-- Witness for C6 (amended) at the running blinker board and input 150. -/
theorem set_speed_stores_witness :
    (set_speed bRun 150).speed = 150
    ∧ (Board.update_cells (set_speed bRun 150)).2 = some (delay 150) :=
  ⟨(set_speed_stores bRun 150).1, (set_speed_stores bRun 150).2.2.2 rfl⟩

/-- C7: neighbor counting examines only in-bounds orthogonal/diagonal
neighbors of an in-bounds coordinate — never the cell itself, never a cell
outside the grid (hard edges, no wraparound), never a cell at Chebyshev
distance above 1 — and on a grid with at least 2 rows and 2 columns a corner
coordinate examines exactly 3 candidates with count at most 3, an edge
(non-corner) coordinate exactly 5 with count at most 5, and an interior
coordinate exactly 8 with count at most 8 (counts are at least 0 in ℕ). -/
theorem neighbor_count_bounds (b : Board) (r c : Nat) (hr : r < b.nrows) (hc : c < b.ncols)
    (hrows : 2 ≤ b.nrows) (hcols : 2 ≤ b.ncols) :
    (∀ p ∈ neighborCandidates b r c,
        p.1 < b.nrows ∧ p.2 < b.ncols ∧ p ≠ (r, c)
          ∧ r ≤ p.1 + 1 ∧ p.1 ≤ r + 1 ∧ c ≤ p.2 + 1 ∧ p.2 ≤ c + 1)
    ∧ b.get_neighbors_count r c ≤ (neighborCandidates b r c).length
    ∧ ((r = 0 ∨ r + 1 = b.nrows) ∧ (c = 0 ∨ c + 1 = b.ncols) →
        (neighborCandidates b r c).length = 3 ∧ b.get_neighbors_count r c ≤ 3)
    ∧ (((r = 0 ∨ r + 1 = b.nrows) ∨ (c = 0 ∨ c + 1 = b.ncols)) ∧
          ¬((r = 0 ∨ r + 1 = b.nrows) ∧ (c = 0 ∨ c + 1 = b.ncols)) →
        (neighborCandidates b r c).length = 5 ∧ b.get_neighbors_count r c ≤ 5)
    ∧ (¬(r = 0 ∨ r + 1 = b.nrows) ∧ ¬(c = 0 ∨ c + 1 = b.ncols) →
        (neighborCandidates b r c).length = 8 ∧ b.get_neighbors_count r c ≤ 8) := by
  have hlen := length_neighborCandidates b r c hr hc
  have hcount : b.get_neighbors_count r c ≤ (neighborCandidates b r c).length :=
    List.countP_le_length _
  refine ⟨?_, hcount, ?_, ?_, ?_⟩
  · intro p hp
    unfold neighborCandidates at hp
    rw [List.mem_filter] at hp
    obtain ⟨hp1, hp2⟩ := hp
    rw [mem_prodList] at hp1
    simp only [List.mem_range'_1] at hp1
    have hpne : p ≠ (r, c) := by simpa using hp2
    exact ⟨by omega, by omega, hpne, by omega, by omega, by omega, by omega⟩
  · rintro ⟨hrow, hcol⟩
    have h1 : min b.nrows (r + 2) - (r - 1) = 2 := by omega
    have h2 : min b.ncols (c + 2) - (c - 1) = 2 := by omega
    rw [h1, h2] at hlen
    omega
  · rintro ⟨hor, hnc⟩
    by_cases hrow : r = 0 ∨ r + 1 = b.nrows
    · have hcol : ¬(c = 0 ∨ c + 1 = b.ncols) := fun h => hnc ⟨hrow, h⟩
      have h1 : min b.nrows (r + 2) - (r - 1) = 2 := by omega
      have h2 : min b.ncols (c + 2) - (c - 1) = 3 := by omega
      rw [h1, h2] at hlen
      omega
    · have hcol : c = 0 ∨ c + 1 = b.ncols := by tauto
      have h1 : min b.nrows (r + 2) - (r - 1) = 3 := by omega
      have h2 : min b.ncols (c + 2) - (c - 1) = 2 := by omega
      rw [h1, h2] at hlen
      omega
  · rintro ⟨hrow, hcol⟩
    have h1 : min b.nrows (r + 2) - (r - 1) = 3 := by omega
    have h2 : min b.ncols (c + 2) - (c - 1) = 3 := by omega
    rw [h1, h2] at hlen
    omega

/-- Witness for C7 at the corner (0, 0) of the empty 5×5 board. -/
theorem neighbor_count_bounds_witness :
    (neighborCandidates b55 0 0).length = 3 ∧ b55.get_neighbors_count 0 0 ≤ 3 :=
  (neighbor_count_bounds b55 0 0 (by decide) (by decide) (by decide) (by decide)).2.2.1
    ⟨Or.inl rfl, Or.inl rfl⟩

/-- C8: on the 5×5 grid whose alive set is the horizontal blinker
{(1,1),(1,2),(1,3)}, one step yields exactly {(0,2),(1,2),(2,2)}, a second
step restores the original set, and the period-2 oscillation continues
through the third and fourth steps. -/
theorem blinker_period_two :
    (Board.step blinker).active_cells.toFinset
        = ({(0, 2), (1, 2), (2, 2)} : Finset (Nat × Nat))
    ∧ (Board.step (Board.step blinker)).active_cells.toFinset
        = ({(1, 1), (1, 2), (1, 3)} : Finset (Nat × Nat))
    ∧ (Board.step (Board.step (Board.step blinker))).active_cells.toFinset
        = ({(0, 2), (1, 2), (2, 2)} : Finset (Nat × Nat))
    ∧ (Board.step (Board.step (Board.step (Board.step blinker)))).active_cells.toFinset
        = ({(1, 1), (1, 2), (1, 3)} : Finset (Nat × Nat)) := by
  decide

/-- For an in-bounds coordinate the Python index lookups succeed directly,
and `toggle_cell` reduces to the membership test on `active_cells`. -/
theorem toggle_cell_inbounds (b : Board) (r c : Nat) (hr : r < b.nrows) (hc : c < b.ncols) :
    Board.toggle_cell b r c =
      if (r, c) ∈ b.active_cells then some b
      else some { b with active_cells := b.active_cells ++ [(r, c)] } := by
  have hrIdx : pyIdx (r : Int) b.nrows = some r := by
    simp [pyIdx, hr]
  have hcIdx : pyIdx (c : Int) b.ncols = some c := by
    simp [pyIdx, hc]
  rw [Board.toggle_cell, hrIdx, hcIdx, Option.some_bind, Option.some_bind]

/-- C9: toggling an in-bounds coordinate is idempotent on board state —
toggling twice returns exactly the state of toggling once — and it never
removes any living cell from the alive set; in particular an already-alive
toggled cell stays alive and the board is returned unchanged. -/
theorem toggle_idempotent (b : Board) (r c : Nat) (hr : r < b.nrows) (hc : c < b.ncols) :
    (Board.toggle_cell b r c).bind (fun b1 => Board.toggle_cell b1 r c)
        = Board.toggle_cell b r c
    ∧ Board.toggle_cell b r c ≠ none
    ∧ ((r, c) ∈ b.active_cells → Board.toggle_cell b r c = some b)
    ∧ (∀ b1, Board.toggle_cell b r c = some b1 →
        (r, c) ∈ b1.active_cells ∧ ∀ p ∈ b.active_cells, p ∈ b1.active_cells) := by
  rw [toggle_cell_inbounds b r c hr hc]
  by_cases hm : (r, c) ∈ b.active_cells
  · rw [if_pos hm]
    refine ⟨?_, by simp, fun _ => rfl, ?_⟩
    · rw [Option.some_bind, toggle_cell_inbounds b r c hr hc, if_pos hm]
    · rintro b1 hb1
      cases hb1
      exact ⟨hm, fun p hp => hp⟩
  · rw [if_neg hm]
    refine ⟨?_, by simp, fun hmem => absurd hmem hm, ?_⟩
    · rw [Option.some_bind,
        toggle_cell_inbounds { b with active_cells := b.active_cells ++ [(r, c)] } r c hr hc,
        if_pos (by simp)]
    · rintro b1 hb1
      cases hb1
      exact ⟨by simp, fun p hp => List.mem_append_left _ hp⟩

/-- Witness for C9 at the coordinate (0, 0) of the empty 5×5 board. -/
theorem toggle_idempotent_witness :
    (Board.toggle_cell b55 0 0).bind (fun b1 => Board.toggle_cell b1 0 0)
        = Board.toggle_cell b55 0 0
    ∧ Board.toggle_cell b55 0 0 ≠ none :=
  ⟨(toggle_idempotent b55 0 0 (by decide) (by decide)).1,
    (toggle_idempotent b55 0 0 (by decide) (by decide)).2.1⟩

/-- Two Nodup lists count each other's members identically: both counts are
the size of their common membership. -/
theorem countP_mem_comm {l1 l2 : List (Nat × Nat)} (h1 : l1.Nodup) (h2 : l2.Nodup) :
    l1.countP (fun p => decide (p ∈ l2)) = l2.countP (fun p => decide (p ∈ l1)) := by
  rw [List.countP_eq_length_filter, List.countP_eq_length_filter]
  apply List.Perm.length_eq
  rw [List.perm_ext_iff_of_nodup (h1.filter _) (h2.filter _)]
  intro p
  simp only [List.mem_filter, decide_eq_true_eq]
  exact and_comm

/-- C10: every liveness mutation — a toggle, a `deactivate_cell`, or the
batched commit of `update_cells` (`Board.step`) — preserves the invariant
that `active_cells` has no duplicate entry; under that invariant
`get_neighbors_count` counts each alive neighbor exactly once: it equals the
number of distinct alive cells lying among the examined candidates. -/
theorem liveness_ops_preserve_nodup (b : Board) (h : b.active_cells.Nodup) :
    (∀ (r c : Int) (b1 : Board), Board.toggle_cell b r c = some b1 →
        b1.active_cells.Nodup)
    ∧ (∀ p : Nat × Nat, (b.deactivate_cell p).active_cells.Nodup)
    ∧ (Board.step b).active_cells.Nodup
    ∧ ∀ r c : Nat, b.get_neighbors_count r c =
        (b.active_cells.filter fun p => decide (p ∈ neighborCandidates b r c)).length := by
  refine ⟨?_, fun p => h.erase p, nodup_foldl_erase _ _ (nodup_foldl_addNew _ _ h), ?_⟩
  · intro r c b1 hb1
    rw [Board.toggle_cell, Option.bind_eq_some] at hb1
    obtain ⟨ri, _, hb1⟩ := hb1
    rw [Option.bind_eq_some] at hb1
    obtain ⟨ci, _, hb1⟩ := hb1
    by_cases hm : (ri, ci) ∈ b.active_cells
    · rw [if_pos hm] at hb1
      cases hb1
      exact h
    · rw [if_neg hm] at hb1
      cases hb1
      rw [List.nodup_append]
      refine ⟨h, List.nodup_singleton _, ?_⟩
      intro q hq hq1
      rw [List.mem_singleton] at hq1
      exact hm (hq1 ▸ hq)
  · intro r c
    rw [Board.get_neighbors_count, countP_mem_comm (nodup_neighborCandidates b r c) h,
      List.countP_eq_length_filter]

/-- Witness for C10 at the blinker board. -/
theorem liveness_ops_preserve_nodup_witness :
    (blinker.deactivate_cell (1, 1)).active_cells.Nodup
    ∧ (Board.step blinker).active_cells.Nodup
    ∧ blinker.get_neighbors_count 2 2 =
        (blinker.active_cells.filter fun p =>
          decide (p ∈ neighborCandidates blinker 2 2)).length :=
  ⟨(liveness_ops_preserve_nodup blinker (by decide)).2.1 (1, 1),
    (liveness_ops_preserve_nodup blinker (by decide)).2.2.1,
    (liveness_ops_preserve_nodup blinker (by decide)).2.2.2 2 2⟩

end Life
